import Mathlib

/-
Verification of the APIKeyzer repository (Go).

Shallow embedding of the core components:
 - internal/input/parser.go : Parser.FromStdin / FromFile / FromSingle
   (the stdin/file scanner loop is modelled as a pure function over the
   sequence of lines read by the scanner);
 - internal/detector (second part of internal/input/parser.go) :
   Pattern, KeyDetector, NewKeyDetector, DetectService;
 - internal/validator (manager part of googlemaps.go) : ValidationResult,
   ValidationManager.{GetValidator, ValidateKey, ValidateKeysParallel};
 - internal/validator/services/googlemaps.go : APIEndpoint, APIResponse,
   googleMapsEndpoints, validateEndpoint, Validate, assessRiskLevel.

External library behaviour is abstracted into explicit oracles:
 - Go regexp compilation/matching is a parameter (compileOk, M); concrete
   instances below model the exact behaviour of Go regexp on the
   metacharacter-free literal patterns used in concrete examples;
 - the network stack (url.Parse, json.Marshal, http request creation,
   client.Do, io.ReadAll) is a ProbeOutcome oracle per (endpoint, key);
 - Go maps are modelled as association lists with replace-on-insert
   (mapSet) and lookup (mapGet); claims only ever query lookups, so the
   unspecified iteration order of Go maps is irrelevant here.

Goroutine scheduling in ValidateKeysParallel is modelled as a small-step
transition system (PoolStep / PoolReach): each per-key task acquires a
slot of the size-5 semaphore (the buffered channel), performs its
validation, writes its result slot and releases; wg.Wait corresponds to
the states in which every task is done.
-/

namespace APIKeyzer

/-- Association-list model of a Go map lookup (m[k]). -/
def mapGet {α : Type} : List (String × α) → String → Option α
  | [], _ => none
  | (k1, v1) :: rest, k => if k1 = k then some v1 else mapGet rest k

/-- Association-list model of a Go map assignment (m[k] = v):
replaces the binding if the key is present, otherwise appends. -/
def mapSet {α : Type} : List (String × α) → String → α → List (String × α)
  | [], k, v => [(k, v)]
  | (k1, v1) :: rest, k, v =>
    if k1 = k then (k, v) :: rest else (k1, v1) :: mapSet rest k v

/-- Does the list start with the given needle? (used to model substring search). -/
def leadsWith : List Char → List Char → Bool
  | _, [] => true
  | [], _ :: _ => false
  | c :: cs, d :: ds => c = d && leadsWith cs ds

/-- Substring containment on character lists; hasSub needle hay is true iff
needle occurs contiguously in hay.  Models Go bytes.Contains / the matching
behaviour of a metacharacter-free Go regular expression. -/
def hasSub (needle : List Char) : List Char → Bool
  | [] => needle.isEmpty
  | h :: t => leadsWith (h :: t) needle || hasSub needle t

/-- Does the string hay contain sub as a substring?  Models Go
bytes.Contains(hay, sub). -/
def bytesContains (hay sub : String) : Bool := hasSub sub.data hay.data

/-! ## Input parser (internal/input/parser.go) -/

/-- Go unicode.IsSpace, as used by strings.TrimSpace: ASCII whitespace,
NEL, NBSP and the Unicode space-separator code points. -/
def goIsSpace (c : Char) : Bool :=
  c = ' ' || c = '\t' || c = '\n' || c = '\r' ||
  c.toNat = 0x0B || c.toNat = 0x0C || c.toNat = 0x85 || c.toNat = 0xA0 ||
  c.toNat = 0x1680 || (0x2000 ≤ c.toNat && c.toNat ≤ 0x200A) ||
  c.toNat = 0x2028 || c.toNat = 0x2029 || c.toNat = 0x202F ||
  c.toNat = 0x205F || c.toNat = 0x3000

/-- Drop leading and trailing whitespace from a character list. -/
def trimSpaceList (cs : List Char) : List Char :=
  ((cs.dropWhile goIsSpace).reverse.dropWhile goIsSpace).reverse

/-- Model of Go strings.TrimSpace. -/
def trimSpace (s : String) : String := ⟨trimSpaceList s.data⟩

/-- The scanner loop shared by Parser.FromStdin and Parser.FromFile:
for each line, trim it, and append it to the accumulated keys unless it is
empty or already seen (the Go code tracks seen keys in a map whose domain
always equals the keys collected so far). -/
def collectKeys : List String → List String → List String
  | keys, [] => keys
  | keys, line :: rest =>
    if trimSpace line != "" && !(keys.contains (trimSpace line)) then
      collectKeys (keys ++ [trimSpace line]) rest
    else collectKeys keys rest

/-- Pure core of Parser.FromStdin / Parser.FromFile: the list of keys
produced from the sequence of lines delivered by the bufio scanner
(I/O and the verbose printing are abstracted away). -/
def fromLines (lines : List String) : List String := collectKeys [] lines

/-- Model of Parser.FromSingle: a one-element slice holding the trimmed key. -/
def FromSingle (key : String) : List String := [trimSpace key]

/-- Spec-side definition, following the specification text for the input
supplier: keep the first occurrence of each element, in order. -/
def dedupFirst : List String → List String
  | [] => []
  | x :: xs => x :: dedupFirst (xs.filter (fun y => y != x))
termination_by l => l.length
decreasing_by
  simp only [List.length_cons]
  exact Nat.lt_succ_of_le (List.length_filter_le _ xs)

/-- Spec-side definition, following the specification words for the input
supplier: a deduplicated, order-preserving sequence of trimmed, non-empty
key strings obtained from the source lines. -/
def specKeyStream (lines : List String) : List String :=
  dedupFirst ((lines.map trimSpace).filter (fun s => s != ""))

/-! ## Key detector (detector package, second part of internal/input/parser.go) -/

/-- Pattern: a configuration entry with a list of name aliases (the first
one is the canonical service id) and a regex source string. -/
structure Pattern where
  Name : List String
  Regex : String
deriving Repr, DecidableEq

/-- KeyDetector: the ordered pattern entries plus the alias-to-compiled-regex
map.  A compiled Go regexp is represented by its source string (Go regexp
compilation is deterministic in the source). -/
structure KeyDetector where
  patterns : List Pattern
  compiled : List (String × String)
deriving Repr, DecidableEq

/-- The inner loop of NewKeyDetector for one entry: insert every alias of the
entry into the compiled map, bound to the entry's compiled regex.  A later
insert of the same alias string overwrites the earlier one (Go map semantics). -/
def insertAliases (m : List (String × String)) (names : List String) (re : String) :
    List (String × String) :=
  names.foldl (fun acc n => mapSet acc n re) m

/-- Outcome of building the compiled map: success, a returned error, or a Go
runtime panic (indexing Name[0] of an empty alias list while formatting the
compile error message). -/
inductive BuildOut
  | ok (m : List (String × String))
  | err (msg : String)
  | panics
deriving Repr, DecidableEq

/-- The compile loop of NewKeyDetector, parameterised by the regexp
compilation oracle compileOk. -/
def buildCompiled (compileOk : String → Bool) :
    List Pattern → List (String × String) → BuildOut
  | [], acc => .ok acc
  | p :: rest, acc =>
    if compileOk p.Regex then
      buildCompiled compileOk rest (insertAliases acc p.Name p.Regex)
    else
      match p.Name.head? with
      | some n => .err ("invalid regex pattern for " ++ n)
      | none => .panics

/-- Outcome of NewKeyDetector. -/
inductive NKDOut
  | ok (d : KeyDetector)
  | err (msg : String)
  | panics
deriving Repr, DecidableEq

/-- Model of NewKeyDetector, starting from the already JSON-decoded pattern
list (the json.Unmarshal step is abstracted away; a payload that fails to
decode is rejected before this point and is out of scope here).  Note that
the Go code never calls ValidatePattern: no check that Name is non-empty. -/
def NewKeyDetector (compileOk : String → Bool) (patterns : List Pattern) : NKDOut :=
  match buildCompiled compileOk patterns [] with
  | .ok m => .ok ⟨patterns, m⟩
  | .err s => .err s
  | .panics => .panics

/-- Outcome of DetectService: the detected canonical service name, the
empty-string no-match result, or a Go runtime panic (indexing Name[0] of an
empty alias list, or calling MatchString on a nil compiled regexp). -/
inductive DetectOut
  | found (s : String)
  | noMatch
  | panics
deriving Repr, DecidableEq

/-- The loop of KeyDetector.DetectService: for each entry in configuration
order, look up the compiled regex stored under the entry's canonical (first)
alias and test it against the key; parameterised by the regexp matching
oracle M (M re key: does compiled regex re match key, unanchored). -/
def detectLoop (M : String → String → Bool) (compiled : List (String × String))
    (key : String) : List Pattern → DetectOut
  | [] => .noMatch
  | p :: rest =>
    match p.Name.head? with
    | none => .panics
    | some canon =>
      match mapGet compiled canon with
      | none => .panics
      | some re => if M re key then .found canon else detectLoop M compiled key rest

/-- Model of KeyDetector.DetectService. -/
def DetectService (M : String → String → Bool) (d : KeyDetector) (key : String) :
    DetectOut :=
  detectLoop M d.compiled key d.patterns

/-- Spec-side definition, following the claim words for detect: the canonical
(first) alias of the first entry whose own regex matches the key, the empty
string when no entry matches. -/
def specDetect (M : String → String → Bool) (patterns : List Pattern)
    (key : String) : String :=
  match patterns.find? (fun p => M p.Regex key) with
  | some p => p.Name.headD ""
  | none => ""

/-- Compilation oracle for concrete examples whose regexes all compile
(every metacharacter-free literal is a valid Go regexp). -/
def alwaysCompiles : String → Bool := fun _ => true

/-- Matching oracle for concrete examples: models Go regexp matching for
metacharacter-free literal patterns, which match a key iff the literal
occurs in the key as a substring (Go MatchString is unanchored). -/
def litMatch (re key : String) : Bool := bytesContains key re

/-! ## Validator core types (internal/validator, manager part of googlemaps.go) -/

/-- RiskLevel is a Go string type; its zero value is the empty string. -/
def RiskLevelLow : String := "low"

/-- RiskLevel constant "medium". -/
def RiskLevelMedium : String := "medium"

/-- RiskLevel constant "high". -/
def RiskLevelHigh : String := "high"

/-- The sentinel validator.ErrInvalidKey, represented by its message. -/
def ErrInvalidKey : String := "invalid API key"

/-- A value stored in ValidationResult.Details: either the per-endpoint
error string, or the status-code/vulnerable map stored on a response. -/
inductive DetailVal
  | err (s : String)
  | resp (statusCode : Nat) (vulnerable : Bool)
deriving Repr, DecidableEq

/-- Model of validator.ValidationResult.  The ValidatedAt timestamp is not
modelled (no claim concerns it).  The Go zero values are the defaults. -/
structure ValidationResult where
  Valid : Bool := false
  Service : String := ""
  Permissions : List String := []
  RiskLevel : String := ""
  Details : List (String × DetailVal) := []
  Error : Option String := none
  ErrorStr : String := ""
deriving Repr, DecidableEq

/-! ## Google Maps validator (internal/validator/services/googlemaps.go) -/

/-- Model of APIResponse: the HTTP status code, the raw body (as a string),
and the best-effort JSON fields status / error_message (empty when the body
is not JSON, matching the ignored json.Unmarshal). -/
structure APIResponse where
  StatusCode : Nat
  Content : String
  Status : String
  ErrorMessage : String
deriving Repr, DecidableEq

/-- Model of APIEndpoint; VulnCheck is the per-endpoint predicate. -/
structure APIEndpoint where
  URL : String
  Method : String
  Parameters : List (String × String) := []
  Headers : List (String × String) := []
  PostData : List (String × String) := []
  VulnCheck : APIResponse → Bool

/-- Oracle outcome for one probe of one endpoint with one key: each failure
point of validateEndpoint, or the parsed response.  The request building
(query parameters, key injection, headers) is deterministic and does not
influence any claim, so it is folded into the oracle. -/
inductive ProbeOutcome
  | urlErr (msg : String)
  | marshalErr (msg : String)
  | reqErr (msg : String)
  | transportErr (msg : String)
  | readErr (msg : String)
  | ok (resp : APIResponse)

/-- Is an Except value a success?  (Go: the returned error is nil.) -/
def isOkE {ε α : Type} : Except ε α → Bool
  | .ok _ => true
  | .error _ => false

/-- Model of GoogleMapsValidator.validateEndpoint: turns the oracle outcome
for (endpoint, key) into the wrapped error returned by the Go function, or
the response. -/
def validateEndpoint (world : APIEndpoint → String → ProbeOutcome)
    (endpoint : APIEndpoint) (key : String) : Except String APIResponse :=
  match world endpoint key with
  | .urlErr m => .error ("invalid endpoint URL: " ++ m)
  | .marshalErr m => .error ("failed to marshal post data: " ++ m)
  | .reqErr m => .error ("failed to create request: " ++ m)
  | .transportErr m => .error ("request failed: " ++ m)
  | .readErr m => .error ("failed to read response: " ++ m)
  | .ok r => .ok r

/-- Did this endpoint's probe succeed and report vulnerable? -/
def vulnOf (world : APIEndpoint → String → ProbeOutcome) (key : String)
    (e : APIEndpoint) : Bool :=
  match validateEndpoint world e key with
  | .ok resp => e.VulnCheck resp
  | .error _ => false

/-- The detail value the Validate loop stores for one endpoint. -/
def detailOf (world : APIEndpoint → String → ProbeOutcome) (key : String)
    (e : APIEndpoint) : DetailVal :=
  match validateEndpoint world e key with
  | .error m => .err ("Error: " ++ m)
  | .ok resp => .resp resp.StatusCode (e.VulnCheck resp)

/-- Model of GoogleMapsValidator.assessRiskLevel. -/
def assessRiskLevel (vulnerableAPIs : List String) : String :=
  match vulnerableAPIs.length with
  | 0 => RiskLevelLow
  | 1 => RiskLevelMedium
  | 2 => RiskLevelMedium
  | _ => RiskLevelHigh

/-- The endpoint loop of GoogleMapsValidator.Validate, carrying the state
(result.Valid, vulnerableAPIs, result.Details). -/
def validateLoop (world : APIEndpoint → String → ProbeOutcome) (key : String) :
    List APIEndpoint → Bool × List String × List (String × DetailVal) →
    Bool × List String × List (String × DetailVal)
  | [], acc => acc
  | e :: rest, (valid, vuln, details) =>
    match validateEndpoint world e key with
    | .error m =>
      validateLoop world key rest
        (valid, vuln, mapSet details e.URL (.err ("Error: " ++ m)))
    | .ok resp =>
      validateLoop world key rest
        (valid || e.VulnCheck resp,
         if e.VulnCheck resp then vuln ++ [e.URL] else vuln,
         mapSet details e.URL (.resp resp.StatusCode (e.VulnCheck resp)))

/-- The details map produced by processing a list of endpoints (used to state
what the loop does to result.Details). -/
def loopDetails (world : APIEndpoint → String → ProbeOutcome) (key : String) :
    List APIEndpoint → List (String × DetailVal) → List (String × DetailVal)
  | [], dt => dt
  | e :: rest, dt => loopDetails world key rest (mapSet dt e.URL (detailOf world key e))

/-- The Static Map endpoint. -/
def ep1 : APIEndpoint :=
  { URL := "https://maps.googleapis.com/maps/api/staticmap"
    Method := "GET"
    Parameters := [("center", "45,10"), ("zoom", "7"), ("size", "400x400")]
    Headers := [("Accept", "*/*")]
    VulnCheck := fun resp => resp.StatusCode == 200 || bytesContains resp.Content "PNG" }

/-- The Street View endpoint. -/
def ep2 : APIEndpoint :=
  { URL := "https://maps.googleapis.com/maps/api/streetview"
    Method := "GET"
    Parameters := [("size", "400x400"), ("location", "40.720032,-73.988354"),
                   ("fov", "90"), ("heading", "235"), ("pitch", "10")]
    Headers := [("Accept", "*/*")]
    VulnCheck := fun resp => resp.StatusCode == 200 || bytesContains resp.Content "PNG" }

/-- The Directions endpoint. -/
def ep3 : APIEndpoint :=
  { URL := "https://maps.googleapis.com/maps/api/directions/json"
    Method := "GET"
    Parameters := [("origin", "Disneyland"), ("destination", "Universal Studios Hollywood")]
    Headers := [("Accept", "application/json")]
    VulnCheck := fun resp => resp.StatusCode == 200 && resp.ErrorMessage == "" }

/-- The Geolocation endpoint. -/
def ep4 : APIEndpoint :=
  { URL := "https://www.googleapis.com/geolocation/v1/geolocate"
    Method := "POST"
    PostData := [("considerIp", "true")]
    Headers := [("Content-Type", "application/json"), ("Accept", "application/json")]
    VulnCheck := fun resp => resp.StatusCode == 200 && !(bytesContains resp.Content "error") }

/-- The static googleMapsEndpoints list. -/
def googleMapsEndpoints : List APIEndpoint := [ep1, ep2, ep3, ep4]

/-- GoogleMapsValidator.GetService. -/
def GetService : String := "Google Safe Browsing API Key"

/-- GoogleMapsValidator.Validate with the endpoint list as an explicit
parameter (the Go loop ranges over the global googleMapsEndpoints; the list
is generalised so the fold law can be stated for any N). The Go function's
only return statement is (result, nil), so the error case of the Except is
never produced. -/
def ValidateGeneric (world : APIEndpoint → String → ProbeOutcome)
    (endpoints : List APIEndpoint) (key : String) :
    Except String ValidationResult :=
  let st := validateLoop world key endpoints (false, [], [])
  Except.ok
    { Valid := st.1
      Service := GetService
      Permissions := st.2.1
      RiskLevel := assessRiskLevel st.2.1
      Details := st.2.2
      Error := if st.1 then none else some ErrInvalidKey
      ErrorStr := if st.1 then "" else "API key not vulnerable for any endpoints" }

/-- Model of GoogleMapsValidator.Validate. -/
def Validate (world : APIEndpoint → String → ProbeOutcome) (key : String) :
    Except String ValidationResult :=
  ValidateGeneric world googleMapsEndpoints key

/-! ## Validation manager (manager part of googlemaps.go) -/

/-- A registered validator: its service id and its Validate behaviour
(what GoogleMapsValidator or any other implementation returns per key). -/
structure ValidatorM where
  service : String
  validate : String → Except String ValidationResult

/-- Model of ValidationManager.GetValidator (the registry map). -/
def GetValidator (vm : List (String × ValidatorM)) (service : String) :
    Option ValidatorM :=
  mapGet vm service

/-- Model of ValidationManager.RegisterValidator: map insert, last writer wins. -/
def RegisterValidator (vm : List (String × ValidatorM)) (v : ValidatorM) :
    List (String × ValidatorM) :=
  mapSet vm v.service v

/-- Model of ValidationManager.ValidateKey. -/
def ValidateKey (vm : List (String × ValidatorM)) (service key : String) :
    Except String ValidationResult :=
  match GetValidator vm service with
  | none => .error ("no validator found for service: " ++ service)
  | some v => v.validate key

/-- The verdict ValidateKeysParallel places in a key's result slot: the
validator's result, or on error the error verdict built inline in the
goroutine (Valid false, the error recorded, other fields zero). -/
def slotResult (vm : List (String × ValidatorM)) (service key : String) :
    ValidationResult :=
  match ValidateKey vm service key with
  | .ok r => r
  | .error e =>
    { Valid := false
      Service := service
      Error := some e
      ErrorStr := e }

/-- Lifecycle of one per-key goroutine: spawned but not yet holding a
semaphore slot; holding a slot (its probe is in flight); finished. -/
inductive Phase
  | pending
  | running
  | done
deriving Repr, DecidableEq

/-- State of one ValidateKeysParallel execution: the phase of each task and
the results slice (one slot per input key, nil until written). -/
structure PoolState where
  phase : List Phase
  results : List (Option ValidationResult)
deriving Repr, DecidableEq

/-- Number of probes currently in flight (tasks holding a semaphore slot). -/
def inFlight (s : PoolState) : Nat :=
  s.phase.countP (fun ph => decide (ph = Phase.running))

/-- Initial state of ValidateKeysParallel: results := make([],n), all tasks
spawned and waiting on the semaphore. -/
def initState (n : Nat) : PoolState :=
  ⟨List.replicate n Phase.pending, List.replicate n Option.none⟩

/-- One scheduler step of ValidateKeysParallel.  acquire models the
semaphore receive: it can fire only while fewer than 5 tasks hold a slot
(the buffered channel has capacity 5).  finish models the task computing
its verdict, writing results[index] and releasing the slot. -/
inductive PoolStep (vm : List (String × ValidatorM)) (service : String)
    (keys : List String) : PoolState → PoolState → Prop
  | acquire (s : PoolState) (i : Nat)
      (hp : s.phase.get? i = some Phase.pending)
      (hsem : inFlight s < 5) :
      PoolStep vm service keys s ⟨s.phase.set i Phase.running, s.results⟩
  | finish (s : PoolState) (i : Nat)
      (hp : s.phase.get? i = some Phase.running) :
      PoolStep vm service keys s
        ⟨s.phase.set i Phase.done,
         s.results.set i (some (slotResult vm service (keys.getD i "")))⟩

/-- Reachable states of one ValidateKeysParallel execution on the given keys. -/
inductive PoolReach (vm : List (String × ValidatorM)) (service : String)
    (keys : List String) : PoolState → Prop
  | init : PoolReach vm service keys (initState keys.length)
  | step {s t : PoolState} : PoolReach vm service keys s →
      PoolStep vm service keys s t → PoolReach vm service keys t

/-- Concrete fixtures for witnesses: a world in which every probe answers
with a plain 200 response. -/
def okWorld : APIEndpoint → String → ProbeOutcome :=
  fun _ _ => .ok ⟨200, "", "", ""⟩

/-- A world in which the POST endpoint fails with a transport error and the
others answer 403. -/
def postFailWorld : APIEndpoint → String → ProbeOutcome :=
  fun e _ =>
    if e.Method == "POST" then .transportErr "dial timeout"
    else .ok ⟨403, "", "", ""⟩

/-- A world in which every endpoint URL fails to parse. -/
def badUrlWorld : APIEndpoint → String → ProbeOutcome :=
  fun _ _ => .urlErr "missing protocol scheme"

/-- A successful verdict used by the witness registry. -/
def okVerdictW : ValidationResult :=
  { Valid := true
    Service := "S"
    Permissions := ["u"]
    RiskLevel := RiskLevelMedium }

/-- A witness validator: errors on key a, succeeds on every other key. -/
def valW : ValidatorM :=
  ⟨"S", fun k => if k == "a" then .error "boom" else .ok okVerdictW⟩

/-- A witness registry holding valW under service S. -/
def vmW : List (String × ValidatorM) := [("S", valW)]

/-- The error verdict ValidateKeysParallel builds for key a under vmW. -/
def errVerdictW : ValidationResult :=
  { Valid := false
    Service := "S"
    Error := some "boom"
    ErrorStr := "boom" }

/-- Invariant of ValidateKeysParallel's state: the two slices keep the
input length, at most 5 probes hold a semaphore slot, and every finished
task has written its own key's verdict into its own slot. -/
structure PoolInv (vm : List (String × ValidatorM)) (service : String)
    (keys : List String) (s : PoolState) : Prop where
  phlen : s.phase.length = keys.length
  reslen : s.results.length = keys.length
  sem : inFlight s ≤ 5
  slots : ∀ i, s.phase.get? i = some Phase.done →
    s.results.get? i = some (some (slotResult vm service (keys.getD i "")))

/-! ## Association map lemmas -/

lemma mapGet_mapSet_self {α : Type} (m : List (String × α)) (k : String) (v : α) :
    mapGet (mapSet m k v) k = some v := by
  induction m with
  | nil => simp [mapSet, mapGet]
  | cons hd t ih =>
    obtain ⟨k1, v1⟩ := hd
    by_cases hk : k1 = k
    · simp [mapSet, hk, mapGet]
    · simp [mapSet, hk, mapGet, ih]

lemma mapGet_mapSet_ne {α : Type} (m : List (String × α)) (k k2 : String) (v : α)
    (h : k ≠ k2) : mapGet (mapSet m k v) k2 = mapGet m k2 := by
  induction m with
  | nil => simp [mapSet, mapGet, h]
  | cons hd t ih =>
    obtain ⟨k1, v1⟩ := hd
    by_cases hk : k1 = k
    · subst hk
      simp [mapSet, mapGet, h]
    · simp [mapSet, hk, mapGet, ih]

/-! ## Validate fold lemmas (claims C1, C6, C7) -/

lemma validateLoop_eq (world : APIEndpoint → String → ProbeOutcome) (key : String) :
    ∀ (es : List APIEndpoint) (v : Bool) (vl : List String)
      (dt : List (String × DetailVal)),
    validateLoop world key es (v, vl, dt) =
      (v || es.any (fun e => vulnOf world key e),
       vl ++ (es.filter (fun e => vulnOf world key e)).map (fun e => e.URL),
       loopDetails world key es dt) := by
  intro es
  induction es with
  | nil => intro v vl dt; simp [validateLoop, loopDetails]
  | cons e rest ih =>
    intro v vl dt
    cases hve : validateEndpoint world e key with
    | error m =>
      have hv : vulnOf world key e = false := by simp [vulnOf, hve]
      have hd : detailOf world key e = .err ("Error: " ++ m) := by simp [detailOf, hve]
      simp [validateLoop, hve, ih, hv, hd, loopDetails]
    | ok resp =>
      have hv : vulnOf world key e = e.VulnCheck resp := by simp [vulnOf, hve]
      have hd : detailOf world key e = .resp resp.StatusCode (e.VulnCheck resp) := by
        simp [detailOf, hve]
      cases hb : e.VulnCheck resp with
      | false => simp [validateLoop, hve, hb, ih, hv, hd, loopDetails]
      | true => simp [validateLoop, hve, hb, ih, hv, hd, loopDetails, Bool.or_assoc]

lemma any_eq_decide_filter_pos {α : Type} (p : α → Bool) (l : List α) :
    l.any p = decide (0 < (l.filter p).length) := by
  induction l with
  | nil => simp
  | cons x t ih => cases hx : p x <;> simp [hx, ih]

lemma assessRiskLevel_eq (l : List String) :
    assessRiskLevel l =
      if l.length = 0 then RiskLevelLow
      else if l.length ≤ 2 then RiskLevelMedium
      else RiskLevelHigh := by
  unfold assessRiskLevel
  generalize l.length = n
  match n with
  | 0 => rfl
  | 1 => rfl
  | 2 => rfl
  | (k + 3) =>
    rw [if_neg (by omega), if_neg (by omega)]
    rfl

/-- Claim C1: for the reference Validator's Validate, with every endpoint
probe answering, the verdict satisfies the fold law: valid iff at least one
endpoint reports vulnerable, permissions is exactly the list of vulnerable
endpoints' identifiers (hence of length M), and the risk level is low for
M = 0, medium for 1 <= M <= 2, high for M >= 3. -/
theorem endpoint_fold_law (world : APIEndpoint → String → ProbeOutcome)
    (key : String) (endpoints : List APIEndpoint)
    (_hok : ∀ e ∈ endpoints, isOkE (validateEndpoint world e key) = true) :
    ∃ r, ValidateGeneric world endpoints key = Except.ok r ∧
      r.Valid = decide (0 < (endpoints.filter (fun e => vulnOf world key e)).length) ∧
      r.Permissions = (endpoints.filter (fun e => vulnOf world key e)).map (fun e => e.URL) ∧
      r.Permissions.length = (endpoints.filter (fun e => vulnOf world key e)).length ∧
      r.RiskLevel =
        (if (endpoints.filter (fun e => vulnOf world key e)).length = 0 then RiskLevelLow
         else if (endpoints.filter (fun e => vulnOf world key e)).length ≤ 2 then
           RiskLevelMedium
         else RiskLevelHigh) := by
  refine ⟨_, rfl, ?_, ?_, ?_, ?_⟩
  · show (validateLoop world key endpoints (false, [], [])).1 = _
    rw [validateLoop_eq]
    simp [any_eq_decide_filter_pos]
  · show (validateLoop world key endpoints (false, [], [])).2.1 = _
    rw [validateLoop_eq]
    simp
  · show (validateLoop world key endpoints (false, [], [])).2.1.length = _
    rw [validateLoop_eq]
    simp
  · show assessRiskLevel (validateLoop world key endpoints (false, [], [])).2.1 = _
    rw [validateLoop_eq]
    simp [assessRiskLevel_eq]

/-- Witness for claim C1: with every probe answering 200, all four static
endpoints report vulnerable, so M = 4 and the risk level is high. -/
theorem endpoint_fold_law_w :
    ∃ r, ValidateGeneric okWorld googleMapsEndpoints "AIzaTest" = Except.ok r ∧
      r.Valid = decide (0 < (googleMapsEndpoints.filter
        (fun e => vulnOf okWorld "AIzaTest" e)).length) ∧
      r.Permissions = (googleMapsEndpoints.filter
        (fun e => vulnOf okWorld "AIzaTest" e)).map (fun e => e.URL) ∧
      r.Permissions.length = (googleMapsEndpoints.filter
        (fun e => vulnOf okWorld "AIzaTest" e)).length ∧
      r.RiskLevel =
        (if (googleMapsEndpoints.filter
              (fun e => vulnOf okWorld "AIzaTest" e)).length = 0 then RiskLevelLow
         else if (googleMapsEndpoints.filter
              (fun e => vulnOf okWorld "AIzaTest" e)).length ≤ 2 then RiskLevelMedium
         else RiskLevelHigh) :=
  endpoint_fold_law okWorld "AIzaTest" googleMapsEndpoints (fun _ _ => rfl)

lemma loopDetails_get_notin (world : APIEndpoint → String → ProbeOutcome)
    (key : String) :
    ∀ (es : List APIEndpoint) (dt : List (String × DetailVal)) (u : String),
    (∀ e ∈ es, e.URL ≠ u) →
    mapGet (loopDetails world key es dt) u = mapGet dt u := by
  intro es
  induction es with
  | nil => intro dt u _; rfl
  | cons e rest ih =>
    intro dt u h
    have h1 : e.URL ≠ u := h e (by simp)
    rw [loopDetails, ih _ u (fun x hx => h x (by simp [hx]))]
    exact mapGet_mapSet_ne _ _ _ _ h1

lemma loopDetails_get (world : APIEndpoint → String → ProbeOutcome) (key : String) :
    ∀ (es : List APIEndpoint) (dt : List (String × DetailVal)),
    (es.map (fun e => e.URL)).Nodup →
    ∀ e ∈ es, mapGet (loopDetails world key es dt) e.URL = some (detailOf world key e) := by
  intro es
  induction es with
  | nil => intro dt _ e he; cases he
  | cons x rest ih =>
    intro dt hnd e he
    have hnd2 : (∀ y ∈ rest, ¬y.URL = x.URL) ∧ (rest.map (fun e => e.URL)).Nodup := by
      simpa using hnd
    rcases List.mem_cons.mp he with rfl | he2
    · rw [loopDetails]
      rw [loopDetails_get_notin world key rest _ e.URL (fun e2 he3 => hnd2.1 e2 he3)]
      exact mapGet_mapSet_self _ _ _
    · rw [loopDetails]
      exact ih _ hnd2.2 e he2

/-- The static endpoint list has pairwise distinct endpoint identifiers. -/
lemma gmaps_urls_nodup : (googleMapsEndpoints.map (fun e => e.URL)).Nodup := by
  decide

/-- Validate always succeeds, and records in the details map one entry per
endpoint identifier: the Error string when the probe failed, the
status-code/vulnerable pair when it answered. -/
lemma validate_details (world : APIEndpoint → String → ProbeOutcome) (key : String)
    (endpoints : List APIEndpoint)
    (hnd : (endpoints.map (fun e => e.URL)).Nodup) :
    ∃ r, ValidateGeneric world endpoints key = Except.ok r ∧
      ∀ e ∈ endpoints, mapGet r.Details e.URL = some (detailOf world key e) := by
  refine ⟨_, rfl, ?_⟩
  intro e he
  show mapGet (validateLoop world key endpoints (false, [], [])).2.2 e.URL = _
  rw [validateLoop_eq]
  exact loopDetails_get world key endpoints [] hnd e he

/-- Claim C6: when probing one endpoint fails with a transport error, the
verdict's details at that endpoint's identifier is the string
"Error: (message)", processing continues with the other endpoints (each of
which still gets its own details entry), and Validate still returns without
error. -/
theorem transport_error_recorded (world : APIEndpoint → String → ProbeOutcome)
    (key : String) (e : APIEndpoint) (m : String)
    (he : e ∈ googleMapsEndpoints)
    (herr : validateEndpoint world e key = .error m) :
    ∃ r, Validate world key = Except.ok r ∧
      mapGet r.Details e.URL = some (.err ("Error: " ++ m)) ∧
      ∀ e2 ∈ googleMapsEndpoints,
        mapGet r.Details e2.URL = some (detailOf world key e2) := by
  obtain ⟨r, hr, hall⟩ := validate_details world key googleMapsEndpoints gmaps_urls_nodup
  refine ⟨r, hr, ?_, hall⟩
  rw [hall e he]
  simp [detailOf, herr]

/-- Witness for claim C6: the POST endpoint fails with a transport error;
its details entry is the Error string and the call still succeeds. -/
theorem transport_error_recorded_w :
    ∃ r, Validate postFailWorld "k" = Except.ok r ∧
      mapGet r.Details ep4.URL = some (.err ("Error: " ++ "request failed: dial timeout")) ∧
      ∀ e2 ∈ googleMapsEndpoints,
        mapGet r.Details e2.URL = some (detailOf postFailWorld "k" e2) :=
  transport_error_recorded postFailWorld "k" ep4 "request failed: dial timeout"
    (by simp [googleMapsEndpoints]) rfl

/-- Counterexample to claim C7: with every endpoint URL failing to parse,
Validate still returns a nil error (the malformed-URL error is absorbed into
the details map), whereas the claim says validate returns a non-nil error. -/
theorem url_error_not_fatal_cex :
    isOkE (Validate badUrlWorld "AIza") = true ∧
    (match Validate badUrlWorld "AIza" with
      | .ok r => mapGet r.Details ep1.URL
      | .error _ => none) =
      some (.err ("Error: " ++ ("invalid endpoint URL: " ++ "missing protocol scheme"))) := by
  exact ⟨rfl, rfl⟩

/-- Claim C7 (amended): a malformed endpoint URL makes validateEndpoint
return an error, but Validate recovers it exactly like a transport error:
the details entry for that endpoint is set to
"Error: invalid endpoint URL: (message)" and Validate returns without error
(Validate's only return statement is (result, nil)). -/
theorem url_error_recovered (world : APIEndpoint → String → ProbeOutcome)
    (key : String) (e : APIEndpoint) (m : String)
    (he : e ∈ googleMapsEndpoints) (hurl : world e key = .urlErr m) :
    ∃ r, Validate world key = Except.ok r ∧
      mapGet r.Details e.URL =
        some (.err ("Error: " ++ ("invalid endpoint URL: " ++ m))) := by
  obtain ⟨r, hr, hall⟩ := validate_details world key googleMapsEndpoints gmaps_urls_nodup
  refine ⟨r, hr, ?_⟩
  rw [hall e he]
  simp [detailOf, validateEndpoint, hurl]

/-- Witness for claim C7 (amended): the Static Map endpoint's URL fails to
parse; the error string lands in details and the call succeeds. -/
theorem url_error_recovered_w :
    ∃ r, Validate badUrlWorld "AIza" = Except.ok r ∧
      mapGet r.Details ep1.URL =
        some (.err ("Error: " ++ ("invalid endpoint URL: " ++ "missing protocol scheme"))) :=
  url_error_recovered badUrlWorld "AIza" ep1 "missing protocol scheme"
    (by simp [googleMapsEndpoints]) rfl

/-! ## Key detector lemmas (claims C2, C3, C8) -/

lemma insertAliases_get_notmem (m : List (String × String)) (names : List String)
    (re : String) (a : String) (h : a ∉ names) :
    mapGet (insertAliases m names re) a = mapGet m a := by
  induction names generalizing m with
  | nil => rfl
  | cons n rest ih =>
    have h1 : a ∉ rest := fun hr => h (List.mem_cons_of_mem _ hr)
    have h2 : n ≠ a := fun he => h (he ▸ List.mem_cons_self n rest)
    show mapGet (insertAliases (mapSet m n re) rest re) a = mapGet m a
    rw [ih _ h1]
    exact mapGet_mapSet_ne _ _ _ _ h2

lemma insertAliases_get_mem (m : List (String × String)) (names : List String)
    (re : String) (a : String) (h : a ∈ names) :
    mapGet (insertAliases m names re) a = some re := by
  induction names generalizing m with
  | nil => cases h
  | cons n rest ih =>
    show mapGet (insertAliases (mapSet m n re) rest re) a = some re
    by_cases ha : a ∈ rest
    · exact ih _ ha
    · have han : a = n := by
        rcases List.mem_cons.mp h with h1 | h1
        · exact h1
        · exact absurd h1 ha
      subst han
      rw [insertAliases_get_notmem _ _ _ _ ha]
      exact mapGet_mapSet_self _ _ _

lemma buildCompiled_get_pres (compileOk : String → Bool) :
    ∀ (ps : List Pattern) (acc m : List (String × String)) (a : String),
    buildCompiled compileOk ps acc = .ok m → (∀ p ∈ ps, a ∉ p.Name) →
    mapGet m a = mapGet acc a := by
  intro ps
  induction ps with
  | nil =>
    intro acc m a h _
    rw [buildCompiled] at h
    injection h with h
    rw [← h]
  | cons p rest ih =>
    intro acc m a h hnot
    rw [buildCompiled] at h
    by_cases hc : compileOk p.Regex
    · rw [if_pos hc] at h
      rw [ih _ _ _ h (fun q hq => hnot q (List.mem_cons_of_mem _ hq))]
      exact insertAliases_get_notmem _ _ _ _ (hnot p (List.mem_cons_self p rest))
    · rw [if_neg hc] at h
      cases hh : p.Name.head? <;> rw [hh] at h <;> cases h

lemma buildCompiled_get (compileOk : String → Bool) :
    ∀ (ps : List Pattern) (acc m : List (String × String)),
    buildCompiled compileOk ps acc = .ok m →
    ((ps.map Pattern.Name).flatten).Nodup →
    ∀ p ∈ ps, ∀ a ∈ p.Name, mapGet m a = some p.Regex := by
  intro ps
  induction ps with
  | nil => intro acc m _ _ p hp; cases hp
  | cons q rest ih =>
    intro acc m h hnd p hp a ha
    have hnd2 : (q.Name ++ (rest.map Pattern.Name).flatten).Nodup := by
      simpa using hnd
    have hdisj : ∀ x ∈ q.Name, x ∉ (rest.map Pattern.Name).flatten :=
      fun x hx => (List.nodup_append.mp hnd2).2.2 hx
    rw [buildCompiled] at h
    by_cases hc : compileOk q.Regex
    · rw [if_pos hc] at h
      rcases List.mem_cons.mp hp with rfl | hp2
      · have hnotin : ∀ p2 ∈ rest, a ∉ p2.Name := by
          intro p2 hp2 ha2
          exact hdisj a ha (List.mem_flatten.mpr ⟨p2.Name, List.mem_map_of_mem _ hp2, ha2⟩)
        rw [buildCompiled_get_pres compileOk rest _ m a h hnotin]
        exact insertAliases_get_mem _ _ _ _ ha
      · exact ih _ _ h (List.nodup_append.mp hnd2).2.1 p hp2 a ha
    · rw [if_neg hc] at h
      cases hh : q.Name.head? <;> rw [hh] at h <;> cases h

lemma detectLoop_spec (M : String → String → Bool) (cmp : List (String × String))
    (key : String) :
    ∀ ps : List Pattern,
    (∀ p ∈ ps, p.Name ≠ []) →
    (∀ p ∈ ps, mapGet cmp (p.Name.headD "") = some p.Regex) →
    detectLoop M cmp key ps =
      (match ps.find? (fun p => M p.Regex key) with
       | some p => .found (p.Name.headD "")
       | none => .noMatch) := by
  intro ps
  induction ps with
  | nil => intro _ _; rfl
  | cons p rest ih =>
    intro hne hcm
    obtain ⟨c, t, hct⟩ : ∃ c t, p.Name = c :: t := by
      cases hn : p.Name with
      | nil => exact absurd hn (hne p (List.mem_cons_self p rest))
      | cons c t => exact ⟨c, t, rfl⟩
    have hget : mapGet cmp c = some p.Regex := by
      have := hcm p (List.mem_cons_self p rest)
      rwa [hct, List.headD_cons] at this
    rw [detectLoop, hct]
    simp only [List.head?_cons, hget]
    cases hM : M p.Regex key with
    | true =>
      have hfind : List.find? (fun q => M q.Regex key) (p :: rest) = some p :=
        List.find?_cons_of_pos _ (by simpa using hM)
      rw [if_pos rfl, hfind]
      show DetectOut.found c = DetectOut.found (p.Name.headD "")
      rw [hct, List.headD_cons]
    | false =>
      have hfind : List.find? (fun q => M q.Regex key) (p :: rest) =
          List.find? (fun q => M q.Regex key) rest :=
        List.find?_cons_of_neg _ (by simpa using hM)
      rw [if_neg (by simp), hfind]
      exact ih (fun q hq => hne q (List.mem_cons_of_mem _ hq))
        (fun q hq => hcm q (List.mem_cons_of_mem _ hq))

/-- Counterexample to claim C2: two entries may declare the same alias
string.  The first entry declares canonical alias X with regex aaa, the
second declares X as a secondary alias with regex bbb; the compiled map
binds X to bbb (last writer wins).  On key bbb, the first entry whose own
regex matches is the second one (canonical Y), but DetectService tests the
overwritten pattern stored under X and returns X, the canonical alias of an
entry whose own regex (aaa) does not match the key at all. -/
theorem detect_tiebreak_cex :
    NewKeyDetector alwaysCompiles [⟨["X"], "aaa"⟩, ⟨["Y", "X"], "bbb"⟩] =
      .ok ⟨[⟨["X"], "aaa"⟩, ⟨["Y", "X"], "bbb"⟩], [("X", "bbb"), ("Y", "bbb")]⟩ ∧
    DetectService litMatch
        ⟨[⟨["X"], "aaa"⟩, ⟨["Y", "X"], "bbb"⟩], [("X", "bbb"), ("Y", "bbb")]⟩ "bbb" =
      .found "X" ∧
    specDetect litMatch [⟨["X"], "aaa"⟩, ⟨["Y", "X"], "bbb"⟩] "bbb" = "Y" ∧
    litMatch "aaa" "bbb" = false := by decide

/-- Claim C2 (amended): provided no alias string is declared by two
different entries (and no alias list is empty), DetectService iterates the
entries in configuration order and returns the canonical (first) alias of
the first entry whose regex matches the key, the no-match result when none
matches.  Without that proviso a duplicated alias is overwritten in the
compiled map and the returned service can belong to an entry whose own
regex does not match (see the counterexample). -/
theorem detect_config_order_first_match (M : String → String → Bool)
    (compileOk : String → Bool) (patterns : List Pattern) (d : KeyDetector)
    (hload : NewKeyDetector compileOk patterns = .ok d)
    (hne : ∀ p ∈ patterns, p.Name ≠ [])
    (hnd : ((patterns.map Pattern.Name).flatten).Nodup)
    (key : String) :
    DetectService M d key =
      (match patterns.find? (fun p => M p.Regex key) with
       | some p => .found (p.Name.headD "")
       | none => .noMatch) := by
  unfold NewKeyDetector at hload
  cases hb : buildCompiled compileOk patterns [] <;> rw [hb] at hload
  case err s => cases hload
  case panics => cases hload
  case ok mm =>
    injection hload with h
    subst h
    apply detectLoop_spec M mm key patterns hne
    intro p hp
    have hc : (p.Name.headD "") ∈ p.Name := by
      cases hn : p.Name with
      | nil => exact absurd hn (hne p hp)
      | cons c t => simp
    exact buildCompiled_get compileOk patterns [] mm hb hnd p hp _ hc

/-- Witness for claim C2 (amended): with two disjoint single-alias entries,
the key xbbby is matched by the second entry only, and DetectService
returns its canonical alias B. -/
theorem detect_config_order_first_match_w :
    DetectService litMatch
        ⟨[⟨["A"], "aaa"⟩, ⟨["B"], "bbb"⟩], [("A", "aaa"), ("B", "bbb")]⟩ "xbbby" =
      .found "B" :=
  detect_config_order_first_match litMatch alwaysCompiles
    [⟨["A"], "aaa"⟩, ⟨["B"], "bbb"⟩]
    ⟨[⟨["A"], "aaa"⟩, ⟨["B"], "bbb"⟩], [("A", "aaa"), ("B", "bbb")]⟩
    rfl (by decide) (by decide) "xbbby"

/-- Counterexample to claim C3: the claim asserts alias lookup returns the
owning entry's compiled pattern even when two entries declare the same
alias string.  With entries (Name [X], Regex aaa) and (Name [Y, X], Regex
bbb), the load succeeds, alias X is owned by (and declared first in) the
first entry whose regex is aaa, yet the compiled map binds X to bbb. -/
theorem alias_lookup_overwrite_cex :
    NewKeyDetector alwaysCompiles [⟨["X"], "aaa"⟩, ⟨["Y", "X"], "bbb"⟩] =
      .ok ⟨[⟨["X"], "aaa"⟩, ⟨["Y", "X"], "bbb"⟩], [("X", "bbb"), ("Y", "bbb")]⟩ ∧
    "X" ∈ (Pattern.mk ["X"] "aaa").Name ∧
    mapGet [("X", "bbb"), ("Y", "bbb")] "X" = some "bbb" ∧
    some "bbb" ≠ some (Pattern.mk ["X"] "aaa").Regex := by decide

/-- Claim C3 (amended): when no alias string is declared by two different
entries, looking any alias up in the compiled map yields the same compiled
pattern as the alias's owning entry.  With duplicate alias declarations the
map keeps the last declarer's pattern instead (see the counterexample). -/
theorem alias_lookup_owner_of_unique (compileOk : String → Bool)
    (patterns : List Pattern) (d : KeyDetector)
    (hload : NewKeyDetector compileOk patterns = .ok d)
    (hnd : ((patterns.map Pattern.Name).flatten).Nodup)
    (p : Pattern) (hp : p ∈ patterns) (a : String) (ha : a ∈ p.Name) :
    mapGet d.compiled a = some p.Regex := by
  unfold NewKeyDetector at hload
  cases hb : buildCompiled compileOk patterns [] <;> rw [hb] at hload
  case err s => cases hload
  case panics => cases hload
  case ok mm =>
    injection hload with h
    subst h
    exact buildCompiled_get compileOk patterns [] mm hb hnd p hp a ha

/-- Witness for claim C3 (amended): alias B of the second entry resolves to
that entry's own pattern bbb. -/
theorem alias_lookup_owner_of_unique_w :
    mapGet (KeyDetector.mk [⟨["A"], "aaa"⟩, ⟨["B"], "bbb"⟩]
      [("A", "aaa"), ("B", "bbb")]).compiled "B" = some "bbb" :=
  alias_lookup_owner_of_unique alwaysCompiles [⟨["A"], "aaa"⟩, ⟨["B"], "bbb"⟩]
    ⟨[⟨["A"], "aaa"⟩, ⟨["B"], "bbb"⟩], [("A", "aaa"), ("B", "bbb")]⟩
    rfl (by decide) ⟨["B"], "bbb"⟩ (by decide) "B" (by decide)

/-- Claim C8 is a code bug: NewKeyDetector never calls ValidatePattern (the
repository's own validity check, whose documentation requires at least one
name per pattern), so a configuration entry with an empty alias list and a
compiling regex is accepted, and DetectService then evaluates Name[0] on
the empty list: an index-out-of-range panic on every key. -/
theorem emptyname_accepted_detect_panics :
    NewKeyDetector alwaysCompiles [⟨[], "aaa"⟩] = .ok ⟨[⟨[], "aaa"⟩], []⟩ ∧
    DetectService litMatch ⟨[⟨[], "aaa"⟩], []⟩ "anykey" = .panics := by decide

/-! ## List index lemmas for the pool model -/

lemma lset_get_self {α : Type} : ∀ (l : List α) (i : Nat) (b : α), i < l.length →
    (l.set i b).get? i = some b := by
  intro l
  induction l with
  | nil => intro i b h; exact absurd h (Nat.not_lt_zero i)
  | cons x t ih =>
    intro i b h
    cases i with
    | zero => rfl
    | succ j => exact ih j b (Nat.lt_of_succ_lt_succ h)

lemma lset_get_ne {α : Type} : ∀ (l : List α) (i j : Nat) (b : α), i ≠ j →
    (l.set i b).get? j = l.get? j := by
  intro l
  induction l with
  | nil => intro i j b _; rfl
  | cons x t ih =>
    intro i j b hne
    cases i with
    | zero =>
      cases j with
      | zero => exact absurd rfl hne
      | succ k => rfl
    | succ m =>
      cases j with
      | zero => rfl
      | succ k => exact ih m k b (fun hh => hne (by rw [hh]))

lemma lget_lt_length {α : Type} : ∀ (l : List α) (i : Nat) (a : α),
    l.get? i = some a → i < l.length := by
  intro l
  induction l with
  | nil => intro i a h; cases h
  | cons x t ih =>
    intro i a h
    cases i with
    | zero => exact Nat.succ_pos _
    | succ j => exact Nat.succ_lt_succ (ih j a h)

lemma lcountP_set {α : Type} (p : α → Bool) :
    ∀ (l : List α) (i : Nat) (a b : α), l.get? i = some a →
    (l.set i b).countP p + (if p a then 1 else 0) =
      l.countP p + (if p b then 1 else 0) := by
  intro l
  induction l with
  | nil => intro i a b h; cases h
  | cons x t ih =>
    intro i a b h
    cases i with
    | zero =>
      injection h with hxa
      subst hxa
      cases hpx : p x <;> cases hpb : p b <;>
        simp [List.countP_cons, hpx, hpb]
    | succ j =>
      have hone := ih j a b h
      simp only [List.set_cons_succ, List.countP_cons]
      omega

lemma lgetD_eq_getElem {α : Type} : ∀ (l : List α) (d : α) (i : Nat)
    (hi : i < l.length), l.getD i d = l[i] := by
  intro l
  induction l with
  | nil => intro d i hi; exact absurd hi (Nat.not_lt_zero i)
  | cons x t ih =>
    intro d i hi
    cases i with
    | zero => rfl
    | succ j => exact ih d j (Nat.lt_of_succ_lt_succ hi)

lemma lget_replicate {α : Type} : ∀ (n i : Nat) (a x : α),
    (List.replicate n a).get? i = some x → x = a := by
  intro n
  induction n with
  | zero => intro i a x h; cases h
  | succ m ih =>
    intro i a x h
    cases i with
    | zero =>
      injection h with h
      exact h.symm
    | succ j => exact ih j a x h

lemma countP_replicate_run (n : Nat) :
    (List.replicate n Phase.pending).countP (fun ph => decide (ph = Phase.running)) = 0 := by
  induction n with
  | zero => rfl
  | succ m ih => simp [List.replicate_succ, List.countP_cons, ih]

/-! ## Pool invariant (claims C4, C5, C10) -/

lemma poolInv_init (vm : List (String × ValidatorM)) (service : String)
    (keys : List String) : PoolInv vm service keys (initState keys.length) := by
  refine ⟨List.length_replicate _ _, List.length_replicate _ _, ?_, ?_⟩
  · show (List.replicate keys.length Phase.pending).countP _ ≤ 5
    rw [countP_replicate_run]
    omega
  · intro i h
    have := lget_replicate _ _ _ _ h
    cases this

lemma poolInv_step (vm : List (String × ValidatorM)) (service : String)
    (keys : List String) (s t : PoolState) (hs : PoolStep vm service keys s t)
    (hi : PoolInv vm service keys s) : PoolInv vm service keys t := by
  cases hs with
  | acquire i hp hsem =>
    refine ⟨?_, hi.reslen, ?_, ?_⟩
    · rw [List.length_set]
      exact hi.phlen
    · have heq := lcountP_set (fun ph => decide (ph = Phase.running))
        s.phase i Phase.pending Phase.running hp
      simp only [decide_eq_true_eq, if_pos, if_neg] at heq
      have hse : List.countP (fun ph => decide (ph = Phase.running)) s.phase < 5 := hsem
      show (s.phase.set i Phase.running).countP _ ≤ 5
      simp at heq
      omega
    · intro j hj
      by_cases hij : i = j
      · subst hij
        rw [lset_get_self s.phase i Phase.running
          (lget_lt_length s.phase i Phase.pending hp)] at hj
        cases hj
      · rw [lset_get_ne s.phase i j Phase.running hij] at hj
        exact hi.slots j hj
  | finish i hp =>
    have hilen : i < s.phase.length := lget_lt_length s.phase i Phase.running hp
    refine ⟨?_, ?_, ?_, ?_⟩
    · rw [List.length_set]
      exact hi.phlen
    · rw [List.length_set]
      exact hi.reslen
    · have heq := lcountP_set (fun ph => decide (ph = Phase.running))
        s.phase i Phase.running Phase.done hp
      have hse : List.countP (fun ph => decide (ph = Phase.running)) s.phase ≤ 5 := hi.sem
      show (s.phase.set i Phase.done).countP _ ≤ 5
      simp at heq
      omega
    · intro j hj
      by_cases hij : i = j
      · subst hij
        have hires : i < s.results.length := by
          rw [hi.reslen, ← hi.phlen]
          exact hilen
        exact lset_get_self s.results i _ hires
      · rw [lset_get_ne s.phase i j Phase.done hij] at hj
        rw [lset_get_ne s.results i j _ hij]
        exact hi.slots j hj

lemma poolInv_reach (vm : List (String × ValidatorM)) (service : String)
    (keys : List String) (s : PoolState) (h : PoolReach vm service keys s) :
    PoolInv vm service keys s := by
  induction h with
  | init => exact poolInv_init vm service keys
  | step hr hst ih => exact poolInv_step vm service keys _ _ hst ih

/-- Claim C10: in every state any execution of ValidateKeysParallel can
reach, at most 5 per-key probe calls are in flight at once (the buffered
channel of capacity 5 gates the acquire transition). -/
theorem semaphore_bound (vm : List (String × ValidatorM)) (service : String)
    (keys : List String) (s : PoolState) (h : PoolReach vm service keys s) :
    inFlight s ≤ 5 :=
  (poolInv_reach vm service keys s h).sem

/-- Witness for claim C10: the initial state of a 3-key batch. -/
theorem semaphore_bound_w : inFlight (initState 3) ≤ 5 :=
  semaphore_bound [] "S" ["a", "b", "c"] (initState 3) PoolReach.init

/-- Claim C4: when every task of ValidateKeysParallel has completed (the
states wg.Wait returns in), the results slice has the length of the input
key slice, and slot i holds exactly the verdict produced for input key i,
for every interleaving of task completions. -/
theorem parallel_positional (vm : List (String × ValidatorM)) (service : String)
    (keys : List String) (s : PoolState) (h : PoolReach vm service keys s)
    (hdone : ∀ i, i < keys.length → s.phase.get? i = some Phase.done) :
    s.results.length = keys.length ∧
    ∀ i (hi : i < keys.length), s.results.get? i =
      some (some (slotResult vm service keys[i])) := by
  have hinv := poolInv_reach vm service keys s h
  refine ⟨hinv.reslen, fun i hi => ?_⟩
  have hsl := hinv.slots i (hdone i hi)
  rwa [lgetD_eq_getElem keys "" i hi] at hsl

/-- A concrete completed execution on keys [a, b] under the witness
registry: task 0 acquires and finishes, then task 1 acquires and finishes. -/
lemma reachW : PoolReach vmW "S" ["a", "b"]
    ⟨[Phase.done, Phase.done], [some errVerdictW, some okVerdictW]⟩ := by
  have h0 : PoolReach vmW "S" ["a", "b"] (initState 2) := PoolReach.init
  have h1 := PoolReach.step h0 (PoolStep.acquire (initState 2) 0 (by decide) (by decide))
  have h2 := PoolReach.step h1 (PoolStep.finish _ 0 (by decide))
  have h3 := PoolReach.step h2 (PoolStep.acquire _ 1 (by decide) (by decide))
  have h4 := PoolReach.step h3 (PoolStep.finish _ 1 (by decide))
  exact h4

/-- Witness for claim C4: a completed 2-key run in which the first key's
validation failed and the second succeeded. -/
theorem parallel_positional_w :
    (PoolState.mk [Phase.done, Phase.done]
      [some errVerdictW, some okVerdictW]).results.length = 2 ∧
    (PoolState.mk [Phase.done, Phase.done]
      [some errVerdictW, some okVerdictW]).results.get? 0 =
      some (some (slotResult vmW "S" "a")) ∧
    (PoolState.mk [Phase.done, Phase.done]
      [some errVerdictW, some okVerdictW]).results.get? 1 =
      some (some (slotResult vmW "S" "b")) :=
  ⟨(parallel_positional vmW "S" ["a", "b"] _ reachW (by decide)).1,
   (parallel_positional vmW "S" ["a", "b"] _ reachW (by decide)).2 0 (by decide),
   (parallel_positional vmW "S" ["a", "b"] _ reachW (by decide)).2 1 (by decide)⟩

/-- Claim C5: in a completed run, a key whose validation returned an error
gets a verdict with Valid false and the error recorded in its own slot,
while every key whose validation succeeded keeps its own verdict untouched;
completion of all tasks is what the call waits for before returning. -/
theorem parallel_failure_isolated (vm : List (String × ValidatorM))
    (service : String) (keys : List String) (s : PoolState)
    (h : PoolReach vm service keys s)
    (hdone : ∀ i, i < keys.length → s.phase.get? i = some Phase.done)
    (i : Nat) (hi : i < keys.length) (e : String)
    (herr : ValidateKey vm service keys[i] = .error e) :
    s.results.get? i = some (some { Valid := false
                                    Service := service
                                    Error := some e
                                    ErrorStr := e }) ∧
    ∀ j (hj : j < keys.length) (r : ValidationResult),
      ValidateKey vm service keys[j] = .ok r →
      s.results.get? j = some (some r) := by
  have hinv := poolInv_reach vm service keys s h
  constructor
  · have hsl := hinv.slots i (hdone i hi)
    rw [lgetD_eq_getElem keys "" i hi] at hsl
    rw [hsl]
    unfold slotResult
    rw [herr]
  · intro j hj r hr
    have hsl := hinv.slots j (hdone j hj)
    rw [lgetD_eq_getElem keys "" j hj] at hsl
    rw [hsl]
    unfold slotResult
    rw [hr]

/-- Witness for claim C5: in the completed 2-key run, key a failed with
boom and got the error verdict; key b kept its successful verdict. -/
theorem parallel_failure_isolated_w :
    (PoolState.mk [Phase.done, Phase.done]
      [some errVerdictW, some okVerdictW]).results.get? 0 =
      some (some { Valid := false
                   Service := "S"
                   Error := some "boom"
                   ErrorStr := "boom" }) ∧
    (PoolState.mk [Phase.done, Phase.done]
      [some errVerdictW, some okVerdictW]).results.get? 1 =
      some (some okVerdictW) :=
  ⟨(parallel_failure_isolated vmW "S" ["a", "b"] _ reachW (by decide)
      0 (by decide) "boom" rfl).1,
   (parallel_failure_isolated vmW "S" ["a", "b"] _ reachW (by decide)
      0 (by decide) "boom" rfl).2 1 (by decide) okVerdictW rfl⟩

/-! ## Input supplier lemmas (claim C9) -/

lemma filter_cons_true {α : Type} (p : α → Bool) (a : α) (l : List α)
    (h : p a = true) : (a :: l).filter p = a :: l.filter p := by
  simp [List.filter_cons, h]

lemma filter_cons_false {α : Type} (p : α → Bool) (a : α) (l : List α)
    (h : p a = false) : (a :: l).filter p = l.filter p := by
  simp [List.filter_cons, h]

lemma dropWhile_head_not (p : Char → Bool) :
    ∀ (l : List Char) (c : Char) (t : List Char),
    l.dropWhile p = c :: t → p c = false := by
  intro l
  induction l with
  | nil => intro c t h; cases h
  | cons x xs ih =>
    intro c t h
    rw [List.dropWhile_cons] at h
    cases hx : p x
    · rw [hx] at h
      simp at h
      rw [← h.1]
      exact hx
    · rw [hx] at h
      simp at h
      exact ih c t h

lemma dropWhile_suffix_ex (p : Char → Bool) :
    ∀ l : List Char, ∃ u, l = u ++ l.dropWhile p := by
  intro l
  induction l with
  | nil => exact ⟨[], rfl⟩
  | cons x xs ih =>
    cases hx : p x
    · refine ⟨[], ?_⟩
      rw [List.dropWhile_cons, hx]
      simp
    · obtain ⟨u, hu⟩ := ih
      refine ⟨x :: u, ?_⟩
      rw [List.dropWhile_cons, hx]
      simpa using hu

lemma dropWhile_idem (p : Char → Bool) (l : List Char) :
    (l.dropWhile p).dropWhile p = l.dropWhile p := by
  cases hd : l.dropWhile p with
  | nil => rfl
  | cons c t =>
    have hc := dropWhile_head_not p l c t hd
    rw [List.dropWhile_cons, hc]
    simp

lemma trimSpaceList_idem (cs : List Char) :
    trimSpaceList (trimSpaceList cs) = trimSpaceList cs := by
  unfold trimSpaceList
  set A := cs.dropWhile goIsSpace with hA
  set R := A.reverse.dropWhile goIsSpace with hR
  have h1 : R.reverse.dropWhile goIsSpace = R.reverse := by
    obtain ⟨u, hu⟩ := dropWhile_suffix_ex goIsSpace A.reverse
    have hA2 : A = R.reverse ++ u.reverse := by
      have h3 := congrArg List.reverse hu
      rw [List.reverse_reverse, List.reverse_append] at h3
      rw [h3, hR]
    cases hrr : R.reverse with
    | nil => rfl
    | cons c t =>
      have hc : goIsSpace c = false := by
        apply dropWhile_head_not goIsSpace cs c (t ++ u.reverse)
        rw [← hA, hA2, hrr]
        rfl
      rw [List.dropWhile_cons, hc]
      simp
  rw [h1, List.reverse_reverse]
  have h2 : R.dropWhile goIsSpace = R := by
    rw [hR]
    exact dropWhile_idem goIsSpace A.reverse
  rw [h2]

lemma trimSpace_idem (s : String) : trimSpace (trimSpace s) = trimSpace s :=
  congrArg String.mk (trimSpaceList_idem s.data)

lemma collectKeys_spec : ∀ (lines keys : List String),
    collectKeys keys lines =
      keys ++ dedupFirst (((lines.map trimSpace).filter (fun s => s != "")).filter
        (fun s => !(keys.contains s))) := by
  intro lines
  induction lines with
  | nil => intro keys; simp [collectKeys, dedupFirst]
  | cons line rest ih =>
    intro keys
    by_cases hke : trimSpace line = ""
    · have hb : (trimSpace line != "") = false := by simp [hke]
      have hcond : (trimSpace line != "" && !(keys.contains (trimSpace line))) = false := by
        rw [hb]
        rfl
      rw [collectKeys, hcond]
      simp only [Bool.false_eq_true, if_false]
      rw [List.map_cons,
        filter_cons_false (fun s => s != "") (trimSpace line) (rest.map trimSpace) hb]
      exact ih keys
    · have hb : (trimSpace line != "") = true := by simp [hke]
      by_cases hkc : trimSpace line ∈ keys
      · have hc : keys.contains (trimSpace line) = true := List.elem_iff.mpr hkc
        have hcond : (trimSpace line != "" && !(keys.contains (trimSpace line))) = false := by
          rw [hb, hc]
          rfl
        rw [collectKeys, hcond]
        simp only [Bool.false_eq_true, if_false]
        rw [List.map_cons,
          filter_cons_true (fun s => s != "") (trimSpace line) (rest.map trimSpace) hb,
          filter_cons_false (fun s => !(keys.contains s)) (trimSpace line) _
            (by simp [hkc])]
        exact ih keys
      · have hc : keys.contains (trimSpace line) = false := by
          cases hcc : keys.contains (trimSpace line)
          · rfl
          · exact absurd (List.elem_iff.mp hcc) hkc
        have hcond : (trimSpace line != "" && !(keys.contains (trimSpace line))) = true := by
          rw [hb, hc]
          rfl
        rw [collectKeys, hcond]
        simp only [if_true]
        rw [ih (keys ++ [trimSpace line])]
        rw [List.map_cons,
          filter_cons_true (fun s => s != "") (trimSpace line) (rest.map trimSpace) hb,
          filter_cons_true (fun s => !(keys.contains s)) (trimSpace line) _
            (by simp [hkc])]
        rw [dedupFirst]
        rw [List.append_assoc, List.singleton_append]
        congr 2
        congr 1
        rw [List.filter_filter, List.filter_filter, List.filter_filter]
        apply List.filter_congr
        intro s _
        by_cases h1 : s = trimSpace line
        · have h2 : (keys ++ [trimSpace line]).contains s = true :=
            List.elem_iff.mpr (by simp [h1])
          rw [h2]
          simp [h1]
        · by_cases h2 : s ∈ keys
          · have h3 : (keys ++ [trimSpace line]).contains s = true :=
              List.elem_iff.mpr (by simp [h2])
            have h4 : keys.contains s = true := List.elem_iff.mpr h2
            rw [h3, h4]
            simp
          · have h3 : (keys ++ [trimSpace line]).contains s = false := by
              cases hcc : (keys ++ [trimSpace line]).contains s
              · rfl
              · have := List.elem_iff.mp hcc
                simp [h1, h2] at this
            have h4 : keys.contains s = false := by
              cases hcc : keys.contains s
              · rfl
              · exact absurd (List.elem_iff.mp hcc) h2
            rw [h3, h4]
            simp [h1]

lemma fromLines_eq_spec (lines : List String) : fromLines lines = specKeyStream lines := by
  unfold fromLines specKeyStream
  rw [collectKeys_spec lines []]
  have hf : ∀ l : List String,
      l.filter (fun s => !(List.contains ([] : List String) s)) = l := by
    intro l
    induction l with
    | nil => rfl
    | cons x t ih =>
      rw [filter_cons_true _ _ _ (by rfl), ih]
  rw [List.nil_append, hf]

lemma mem_dedupFirst : ∀ (l : List String) (x : String), x ∈ dedupFirst l → x ∈ l := by
  intro l
  induction l using dedupFirst.induct with
  | case1 =>
    intro x h
    simp [dedupFirst] at h
  | case2 y ys ih =>
    intro x h
    rw [dedupFirst] at h
    rcases List.mem_cons.mp h with rfl | h2
    · exact List.mem_cons_self _ _
    · exact List.mem_cons_of_mem _ (List.mem_filter.mp (ih x h2)).1

lemma nodup_dedupFirst : ∀ l : List String, (dedupFirst l).Nodup := by
  intro l
  induction l using dedupFirst.induct with
  | case1 => simp [dedupFirst]
  | case2 y ys ih =>
    rw [dedupFirst]
    refine List.nodup_cons.mpr ⟨?_, ih⟩
    intro hmem
    have h2 := (List.mem_filter.mp (mem_dedupFirst _ _ hmem)).2
    simp at h2

/-- Counterexample to claim C9: FromSingle performs no emptiness filtering,
so a whitespace-only key argument produces a sequence whose single element
is the empty string, contradicting the claim that every element of every
source's output is non-empty. -/
theorem fromSingle_empty_cex :
    FromSingle " " = [""] ∧ ("" : String) ∈ FromSingle " " := by decide

/-- Claim C9 (amended): the FromStdin / FromFile scanner produces exactly
the deduplicated, order-preserving (first occurrence kept) sequence of the
trimmed, non-empty line contents: it equals the spec-side stream, has no
duplicates, and each element is non-empty and invariant under trimming.
FromSingle, by contrast, returns the one-element sequence holding the
trimmed key with no emptiness filtering (see the counterexample). -/
theorem input_stream_spec (lines : List String) :
    fromLines lines = specKeyStream lines ∧
    (fromLines lines).Nodup ∧
    ∀ x ∈ fromLines lines, x ≠ "" ∧ trimSpace x = x := by
  refine ⟨fromLines_eq_spec lines, ?_, ?_⟩
  · rw [fromLines_eq_spec]
    exact nodup_dedupFirst _
  · intro x hx
    rw [fromLines_eq_spec] at hx
    obtain ⟨hmem, hne⟩ := List.mem_filter.mp (mem_dedupFirst _ _ hx)
    constructor
    · simpa using hne
    · obtain ⟨y, _, hxy⟩ := List.mem_map.mp hmem
      rw [← hxy]
      exact trimSpace_idem y

/-- Witness for claim C9 (amended): the element a of the stream produced
from four lines (with duplicates, padding and a blank line) is non-empty
and already trimmed. -/
theorem input_stream_spec_w : ("a" : String) ≠ "" ∧ trimSpace "a" = "a" :=
  (input_stream_spec [" a ", "", "a", "b"]).2.2 "a" (by decide)

end APIKeyzer
